import Mathlib

/-!
Verification of the KleoPy periodic-orbit grid-search engine.

This file gives a shallow embedding of the `kleopy` package
(`constants.py`, `orbital_eq.py`, `grid_search.py`, `integrator.py`)
and proves or refutes the specified properties.

Modelling conventions:
* IEEE-754 double values are idealized as exact reals extended with the
  special values `+inf`, `-inf` and `nan` (type `NF` below); each numpy
  elementwise operation is translated to the corresponding `NF` operation
  with IEEE special-value semantics (division by zero yields a signed
  infinity, `np.sqrt` of a negative is `nan`, `np.log 0 = -inf`,
  comparisons against `nan` are false, and so on).  Rounding is not
  modelled; the decimal literals of `constants.py` are carried exactly.
* numpy 2-D arrays are modelled either as index functions
  `Fin n → Fin m → _` or as `List (List _)`, whichever fits the property.
* `scipy.integrate.solve_ivp` is an external collaborator; it is modelled
  abstractly as a function from the assembled call record (`IvpProblem`)
  to a result (`IvpSol`), together with its documented argument
  validation: `y0` must convert to a 1-D float vector, so a `y0` list
  containing a 2-D array raises `ValueError`
  (modelled as `Except.error PyErr.valueError`).
-/

/-- Idealized numpy floating-point scalar: an exact real number or one of
the IEEE special values. -/
inductive NF where
  | fin : ℝ → NF
  | pinf : NF
  | ninf : NF
  | nan : NF

namespace NF

/-- Translation of `np.isinf` (true on either infinity, false on `nan`
and finite values). -/
def isInf : NF → Bool
  | pinf => true
  | ninf => true
  | _ => false

/-- True exactly on finite values (neither infinite nor `nan`). -/
def isFinite : NF → Bool
  | fin _ => true
  | _ => false

/-- Translation of `np.isnan`. -/
def isNan : NF → Bool
  | nan => true
  | _ => false

/-- IEEE addition on idealized doubles. -/
noncomputable def add : NF → NF → NF
  | nan, _ => nan
  | _, nan => nan
  | fin a, fin b => fin (a + b)
  | fin _, pinf => pinf
  | fin _, ninf => ninf
  | pinf, fin _ => pinf
  | ninf, fin _ => ninf
  | pinf, pinf => pinf
  | ninf, ninf => ninf
  | pinf, ninf => nan
  | ninf, pinf => nan

/-- IEEE subtraction on idealized doubles. -/
noncomputable def sub : NF → NF → NF
  | nan, _ => nan
  | _, nan => nan
  | fin a, fin b => fin (a - b)
  | fin _, pinf => ninf
  | fin _, ninf => pinf
  | pinf, fin _ => pinf
  | ninf, fin _ => ninf
  | pinf, pinf => nan
  | ninf, ninf => nan
  | pinf, ninf => pinf
  | ninf, pinf => ninf

/-- IEEE multiplication on idealized doubles (zero times infinity is
`nan`). -/
noncomputable def mul : NF → NF → NF
  | nan, _ => nan
  | _, nan => nan
  | fin a, fin b => fin (a * b)
  | fin a, pinf => if 0 < a then pinf else if a < 0 then ninf else nan
  | fin a, ninf => if 0 < a then ninf else if a < 0 then pinf else nan
  | pinf, fin b => if 0 < b then pinf else if b < 0 then ninf else nan
  | ninf, fin b => if 0 < b then ninf else if b < 0 then pinf else nan
  | pinf, pinf => pinf
  | ninf, ninf => pinf
  | pinf, ninf => ninf
  | ninf, pinf => ninf

/-- IEEE division on idealized doubles: a nonzero finite value divided by
(positive) zero is a signed infinity, `0/0` and `inf/inf` are `nan`.
numpy emits warnings for these cases but never raises (and
`find_dy0t` additionally sets `np.seterr(invalid=ignore,
divide=ignore)`). -/
noncomputable def div : NF → NF → NF
  | nan, _ => nan
  | _, nan => nan
  | fin a, fin b =>
      if b = 0 then (if 0 < a then pinf else if a < 0 then ninf else nan)
      else fin (a / b)
  | fin _, pinf => fin 0
  | fin _, ninf => fin 0
  | pinf, fin b => if 0 ≤ b then pinf else ninf
  | ninf, fin b => if 0 ≤ b then ninf else pinf
  | pinf, pinf => nan
  | pinf, ninf => nan
  | ninf, pinf => nan
  | ninf, ninf => nan

/-- Translation of `np.sqrt`: `nan` on negative arguments (with a
suppressed invalid-value warning), `+inf` at `+inf`. -/
noncomputable def sqrt : NF → NF
  | nan => nan
  | pinf => pinf
  | ninf => nan
  | fin a => if a < 0 then nan else fin (Real.sqrt a)

/-- Translation of `np.log` (natural logarithm): `-inf` at zero, `nan`
on negative arguments, `+inf` at `+inf`. -/
noncomputable def log : NF → NF
  | nan => nan
  | pinf => pinf
  | ninf => nan
  | fin a => if 0 < a then fin (Real.log a) else if a = 0 then ninf else nan

/-- Elementwise `<` as produced by a numpy comparison: any comparison
with `nan` is false. -/
noncomputable def lt : NF → NF → Bool
  | nan, _ => false
  | _, nan => false
  | fin a, fin b => decide (a < b)
  | fin _, pinf => true
  | fin _, ninf => false
  | pinf, fin _ => false
  | ninf, fin _ => true
  | pinf, pinf => false
  | ninf, ninf => false
  | ninf, pinf => true
  | pinf, ninf => false

end NF

namespace Kleopy

/-! Constants from `src/kleopy/constants.py` (the normalized
216-Kleopatra profile), carried exactly. -/

/-- Gravitational constant `G = 6.67430e-11` (`constants.py`). -/
noncomputable def G : ℝ := 6.6743e-11

/-- Mass of the first body, `m1 = 1.1014e+18` kg (`constants.py`). -/
noncomputable def m1 : ℝ := 1.1014e18

/-- Mass of the second body, `m2 = 1.0350e+18` kg (`constants.py`). -/
noncomputable def m2 : ℝ := 1.0350e18

/-- Mass of the segment, `ms = 4.1547e+17` kg (`constants.py`). -/
noncomputable def ms : ℝ := 4.1547e17

/-- Normalized segment length `l = 1` (`constants.py`). -/
noncomputable def l : ℝ := 1

/-- Normalized distance of the first body from the center of mass,
`l1 = 0.486608` (`constants.py`). -/
noncomputable def l1 : ℝ := 0.486608

/-- Normalized distance of the second body from the center of mass,
`l2 = 0.513392` (`constants.py`). -/
noncomputable def l2 : ℝ := 0.513392

/-- Kappa parameter `kappa = 0.991` (`constants.py`). -/
noncomputable def kappa : ℝ := 0.991

/-- Mass-imbalance ratio `mu = 0.484` (`constants.py`). -/
noncomputable def mu : ℝ := 0.484

/-- Segment mass-fraction ratio `mu_s = 0.163` (`constants.py`). -/
noncomputable def mu_s : ℝ := 0.163

/-- Total mass `M = m1 + m2 + ms` (`orbital_eq.py`). -/
noncomputable def M : ℝ := m1 + m2 + ms

/-- Distance to the first body,
`r1 = np.sqrt((x + l1)**2 + y**2 + z**2)` (`orbital_eq.py`).  The
argument of the square root is a sum of squares of finite values, hence
finite and nonnegative, so the result is kept directly in `ℝ`. -/
noncomputable def r1 (x y z : ℝ) : ℝ := Real.sqrt ((x + l1) ^ 2 + y ^ 2 + z ^ 2)

/-- Distance to the second body,
`r2 = np.sqrt((x - l2)**2 + y**2 + z**2)` (`orbital_eq.py`). -/
noncomputable def r2 (x y z : ℝ) : ℝ := Real.sqrt ((x - l2) ^ 2 + y ^ 2 + z ^ 2)

/-- Gravitational potential `potential(x, y, z)` from `orbital_eq.py`:

`U = -G * M * ((1 - mu) * (1-mu_s)/r1 + mu * (1-mu_s)/r2
              + mu_s/l * np.log((r1+r2+l)/(r1+r2-l)))`

The divisions and the logarithm can produce IEEE special values (at
`r1 = 0`, `r2 = 0`, or `r1 + r2 = l`), so the result lives in `NF`. -/
noncomputable def potential (x y z : ℝ) : NF :=
  NF.mul (NF.fin (-(G * M)))
    (NF.add
      (NF.add
        (NF.div (NF.fin ((1 - mu) * (1 - mu_s))) (NF.fin (r1 x y z)))
        (NF.div (NF.fin (mu * (1 - mu_s))) (NF.fin (r2 x y z))))
      (NF.mul (NF.fin (mu_s / l))
        (NF.log (NF.div (NF.fin (r1 x y z + r2 x y z + l))
                        (NF.fin (r1 x y z + r2 x y z - l))))))

/-- Effective potential `potential_eff(x, y, z)` from `orbital_eq.py`:

`Omega = 1/2 * (x**2 + y**2) + kappa * ((1 - mu) * (1-mu_s)/r1
        + mu * (1-mu_s)/r2 + mu_s/l * np.log((r1+r2+l)/(r1+r2-l)))` -/
noncomputable def potential_eff (x y z : ℝ) : NF :=
  NF.add (NF.fin (1 / 2 * (x ^ 2 + y ^ 2)))
    (NF.mul (NF.fin kappa)
      (NF.add
        (NF.add
          (NF.div (NF.fin ((1 - mu) * (1 - mu_s))) (NF.fin (r1 x y z)))
          (NF.div (NF.fin (mu * (1 - mu_s))) (NF.fin (r2 x y z))))
        (NF.mul (NF.fin (mu_s / l))
          (NF.log (NF.div (NF.fin (r1 x y z + r2 x y z + l))
                          (NF.fin (r1 x y z + r2 x y z - l)))))))

/-! Shallow embedding of `grid_search.find_dy0t` (`grid_search.py`,
lines 23-56).  The function is elementwise over the broadcast shape of
its inputs; `sqrtval`, `badmask` and the masked write-back are modelled
per cell.  The initial `np.seterr(invalid=ignore, divide=ignore)`
only suppresses warnings, and `NF` operations are total, so the
computation never raises. -/

/-- The local `sqrtval = 2 * potential_eff(x0, 0, 0) - C` of
`find_dy0t`, at one cell. -/
noncomputable def sqrtval (x0 C : ℝ) : NF :=
  NF.sub (NF.mul (NF.fin 2) (potential_eff x0 0 0)) (NF.fin C)

/-- One cell of `find_dy0t(x0, C)`:
`badmask = (sqrtval < 0) | np.isinf(sqrtval)`, `dy0t = np.sqrt(sqrtval)`,
`dy0t[badmask] = np.nan`. -/
noncomputable def find_dy0t (x0 C : ℝ) : NF :=
  let v := sqrtval x0 C
  let badmask : Bool := NF.lt v (NF.fin 0) || NF.isInf v
  let dy0t := NF.sqrt v
  if badmask then NF.nan else dy0t

/-- `find_dy0t` applied to two same-shape 2-D arrays (the broadcast case
used by `init_grid`), with each intermediate array formed elementwise. -/
noncomputable def find_dy0t_grid {n m : ℕ} (X0 C : Fin n → Fin m → ℝ) :
    Fin n → Fin m → NF :=
  let sqrtvalA : Fin n → Fin m → NF := fun i j =>
    NF.sub (NF.mul (NF.fin 2) (potential_eff (X0 i j) 0 0)) (NF.fin (C i j))
  let badmaskA : Fin n → Fin m → Bool := fun i j =>
    NF.lt (sqrtvalA i j) (NF.fin 0) || NF.isInf (sqrtvalA i j)
  let dy0tA : Fin n → Fin m → NF := fun i j => NF.sqrt (sqrtvalA i j)
  fun i j => if badmaskA i j then NF.nan else dy0tA i j

/-! Shallow embedding of `grid_search.init_grid` (`grid_search.py`,
lines 58-118).  The axis construction is exact rational arithmetic
(`np.linspace` on the given bounds), so it is modelled computably
over `ℚ`. -/

/-- Python `int()` applied to a float/rational: truncation toward
zero. -/
def pyInt (q : ℚ) : ℤ := if 0 ≤ q then ⌊q⌋ else -⌊-q⌋

/-- The sample count `int((hi - lo) / dif) + 1` passed to `np.linspace`
by `init_grid`.  (numpy would reject a negative count; under the
documented usage `lo ≤ hi`, `0 < dif` the count is at least 1.) -/
def numSamples (lo hi dif : ℚ) : ℕ := (pyInt ((hi - lo) / dif) + 1).toNat

/-- `np.linspace lo hi n` with `endpoint=True`: sample `i` is
`lo + i * ((hi - lo) / (n - 1))` and the last sample is overwritten with
the exact stop value; for `n = 1` the single sample is `lo` (numpy
multiplies the zero index by the raw delta in that case). -/
def linspaceQ (lo hi : ℚ) (n : ℕ) : List ℚ :=
  (List.range n).map fun i =>
    if 2 ≤ n ∧ i = n - 1 then hi else lo + i * ((hi - lo) / (n - 1))

/-- The `x0_array` axis built by `init_grid`:
`np.linspace(x0_min, x0_max, int((x0_max - x0_min) / dif_x0) + 1)`. -/
def x0_array (x0_min x0_max dif_x0 : ℚ) : List ℚ :=
  linspaceQ x0_min x0_max (numSamples x0_min x0_max dif_x0)

/-- The `C_array` axis built by `init_grid`:
`np.linspace(C_min, C_max, int((C_max - C_min) / dif_C) + 1)`. -/
def C_array (C_min C_max dif_C : ℚ) : List ℚ :=
  linspaceQ C_min C_max (numSamples C_min C_max dif_C)

/-- First component of `np.meshgrid(x0_array, C_array, indexing=ij)`:
`X0_grid[i][j] = x0_array[i]`. -/
def X0_grid (xs cs : List ℚ) : List (List ℚ) :=
  xs.map fun x => cs.map fun _ => x

/-- Second component of `np.meshgrid(x0_array, C_array, indexing=ij)`:
`C_grid[i][j] = cs[j]`. -/
def C_grid (xs cs : List ℚ) : List (List ℚ) :=
  xs.map fun _ => cs

/-- `DY0T_grid = find_dy0t(X0_grid, C_grid)`: the elementwise
application of `find_dy0t` to the two same-shape ij grids. -/
noncomputable def DY0T_grid (xs cs : List ℚ) : List (List NF) :=
  List.zipWith (fun rowX rowC =>
      List.zipWith (fun (x c : ℚ) => find_dy0t (x : ℝ) (c : ℝ)) rowX rowC)
    (X0_grid xs cs) (C_grid xs cs)

/-! The optional flattened pairs array of `init_grid` (`retgrid=True`
branch, `grid_search.py` lines 111-115):

`grid = np.array(np.meshgrid(x0_array, C_array)).T.reshape(-1, 2)`

`np.meshgrid` without `indexing` uses the `xy` convention, producing
two arrays of shape `(n_C, n_x0)`; stacking them gives shape
`(2, n_C, n_x0)`; `.T` reverses the axes to `(n_x0, n_C, 2)`; and
`reshape(-1, 2)` flattens the first two axes in row-major (C) order.
Arrays are modelled as index functions with the shape in the type. -/

/-- First component of `np.meshgrid(xs, cs)` (default `xy` indexing):
shape `(n_C, n_x0)`, entry `[j, i] = xs[i]`. -/
def meshX_xy (xs cs : List ℚ) : Fin cs.length → Fin xs.length → ℚ :=
  fun _ i => xs.get i

/-- Second component of `np.meshgrid(xs, cs)` (default `xy` indexing):
shape `(n_C, n_x0)`, entry `[j, i] = cs[j]`. -/
def meshY_xy (xs cs : List ℚ) : Fin cs.length → Fin xs.length → ℚ :=
  fun j _ => cs.get j

/-- `np.array(np.meshgrid(xs, cs))`: the two `xy` grids stacked into a
rank-3 array of shape `(2, n_C, n_x0)`. -/
def stackXY (xs cs : List ℚ) : Fin 2 → Fin cs.length → Fin xs.length → ℚ :=
  fun k => if k = 0 then meshX_xy xs cs else meshY_xy xs cs

/-- The `.T` of the stacked array: axis order reversed, shape
`(n_x0, n_C, 2)`. -/
def stackT (xs cs : List ℚ) : Fin xs.length → Fin cs.length → Fin 2 → ℚ :=
  fun i j k => stackXY xs cs k j i

/-- The final `reshape(-1, 2)`: row-major flattening of the first two
axes of the transposed stack, giving the `(N, 2)` pairs array returned
when `retgrid` is true. -/
def flatPairs (xs cs : List ℚ) (p : Fin (xs.length * cs.length))
    (k : Fin 2) : ℚ :=
  stackT xs cs
    ⟨p.val / cs.length,
      Nat.div_lt_of_lt_mul (Nat.lt_of_lt_of_eq p.isLt (Nat.mul_comm _ _))⟩
    ⟨p.val % cs.length,
      Nat.mod_lt _ (by
        rcases Nat.eq_zero_or_pos cs.length with h | h
        · exact absurd p.isLt (by simp [h])
        · exact h)⟩
    k

/-! Shallow embedding of `integrator.find_dxt` (`integrator.py`, lines
22-26) and `grid_search.process_grid` (`grid_search.py`, lines 120-149).

`scipy.integrate.solve_ivp` is an external collaborator.  It is modelled
as an abstract core function `core : IvpProblem → IvpSol` applied to the
assembled call record, preceded by the documented scipy argument
validation (`check_arguments`): `y0 = np.asarray(y0)` must produce a
1-D float array, otherwise `ValueError` is raised.  A `y0` list that
mixes scalars with 2-D numpy arrays is rejected there (numpy refuses the
inhomogeneous array / scipy refuses `ndim != 1`). -/

/-- A Python value appearing as an entry of the `y0` list: either a
float scalar or a 2-D numpy array. -/
inductive PyVal where
  | scalar : NF → PyVal
  | arr2 : List (List NF) → PyVal

/-- The exceptions relevant to `find_dxt` / `process_grid`. -/
inductive PyErr where
  | valueError : PyErr
  | indexError : PyErr
deriving DecidableEq

/-- The argument record assembled by a `solve_ivp` call. -/
structure IvpProblem where
  f : ℝ → List NF → List NF
  t0 : ℝ
  tf : ℝ
  y0 : List NF
  method : String
  tEval : List ℝ

/-- The result object of a `solve_ivp` call: `status` (`0` on success,
`-1` on integration failure) and `ys`, the list of solution columns, one
per time point actually delivered (the requested `t_eval` points that
were reached). -/
structure IvpSol where
  status : ℤ
  ys : List (List NF)

/-- scipy `check_arguments` on the `y0` list: succeeds with the float
vector iff every entry is a scalar. -/
def checkY0 : List PyVal → Option (List NF)
  | [] => some []
  | PyVal.scalar a :: rest => (checkY0 rest).map (fun v => a :: v)
  | PyVal.arr2 _ :: _ => none

/-- Model of `scipy.integrate.solve_ivp`: validate `y0`, then hand the
assembled problem to the abstract solver core. -/
def solve_ivp (core : IvpProblem → IvpSol) (f : ℝ → List NF → List NF)
    (t0 tf : ℝ) (y0 : List PyVal) (method : String) (tEval : List ℝ) :
    Except PyErr IvpSol :=
  match checkY0 y0 with
  | none => Except.error PyErr.valueError
  | some v => Except.ok (core ⟨f, t0, tf, v, method, tEval⟩)

/-- `find_dxt(fun, x0, dy0t, method)` from `integrator.py`:

`sol = solve_ivp(fun, (0, np.pi), [x0, 0, 0, 0, dy0t, 0],
                 method=method, t_eval = (np.pi,))`
`return sol.y[3,0]`

`sol.y` has shape `(6, K)` where `K` is the number of delivered time
points; `sol.y[3,0]` reads state component 3 at the first delivered
point and raises `IndexError` when `K = 0`. -/
noncomputable def find_dxt_method (core : IvpProblem → IvpSol)
    (f : ℝ → List NF → List NF) (x0 dy0t : PyVal) (method : String) :
    Except PyErr NF :=
  match solve_ivp core f 0 Real.pi
      [x0, PyVal.scalar (NF.fin 0), PyVal.scalar (NF.fin 0),
       PyVal.scalar (NF.fin 0), dy0t, PyVal.scalar (NF.fin 0)]
      method [Real.pi] with
  | Except.error e => Except.error e
  | Except.ok sol =>
      match sol.ys with
      | [] => Except.error PyErr.indexError
      | c :: _ => Except.ok (c.getD 3 NF.nan)

/-- `find_dxt` with its default argument `method=DOP853`. -/
noncomputable def find_dxt (core : IvpProblem → IvpSol)
    (f : ℝ → List NF → List NF) (x0 dy0t : PyVal) : Except PyErr NF :=
  find_dxt_method core f x0 dy0t ("DOP853")

/-- `process_grid(fun, X0_grid, DY0T_grid)` from `grid_search.py`: after
the dead `np.zeros_like` initialization, the body is the single call
`DXT_grid = integrator.find_dxt(fun, X0_grid, DY0T_grid)` passing the
whole 2-D arrays as the scalar arguments of `find_dxt`. -/
noncomputable def process_grid (core : IvpProblem → IvpSol)
    (f : ℝ → List NF → List NF) (X0g DY0Tg : List (List NF)) :
    Except PyErr NF :=
  let _DXT_init := DY0Tg.map (List.map fun _ => NF.fin 0)
  find_dxt core f (PyVal.arr2 X0g) (PyVal.arr2 DY0Tg)

/-! Specification-side predicates used to state the grid-builder claims
compactly, and small concrete instances used by witnesses. -/

/-- Specification of one `init_grid` axis, as amended: the sample count
is `floor(range / step) + 1`; the minimum is always a sample; the
maximum is a sample whenever the axis has at least two samples
(equivalently, whenever `dif ≤ hi - lo`); and consecutive samples differ
by the common spacing `(hi - lo) / (count - 1)`. -/
def axisSpec (lo hi dif : ℚ) (xs : List ℚ) : Prop :=
  xs.length = (⌊(hi - lo) / dif⌋).toNat + 1 ∧
  lo ∈ xs ∧
  (dif ≤ hi - lo → hi ∈ xs) ∧
  ∀ i : ℕ, i + 1 < xs.length →
    xs.getD (i + 1) 0 - xs.getD i 0 = (hi - lo) / ((xs.length : ℚ) - 1)

/-- Specification of the three ij grids built by `init_grid` from the
axes `xs` and `cs`: all share shape `(xs.length, cs.length)`, and the
position and energy grids satisfy the ij outer-broadcast law
`X0_grid[i][j] = xs[i]`, `C_grid[i][j] = cs[j]`. -/
def ijGridSpec (xs cs : List ℚ) : Prop :=
  (X0_grid xs cs).length = xs.length ∧
  (C_grid xs cs).length = xs.length ∧
  (DY0T_grid xs cs).length = xs.length ∧
  (∀ i : ℕ, i < xs.length →
    ((X0_grid xs cs).getD i []).length = cs.length ∧
    ((C_grid xs cs).getD i []).length = cs.length ∧
    ((DY0T_grid xs cs).getD i []).length = cs.length) ∧
  (∀ i j : ℕ, i < xs.length → j < cs.length →
    ((X0_grid xs cs).getD i []).getD j 0 = xs.getD i 0 ∧
    ((C_grid xs cs).getD i []).getD j 0 = cs.getD j 0)

/-- Documented behavior of `scipy.integrate.solve_ivp` relevant to
`find_dxt`: a run that fails to converge (`status = -1`) terminates
before reaching `tf`, and since the only requested evaluation time is
`tf` itself (`t_eval = (np.pi,)` with `tf = np.pi`), no solution columns
are delivered. -/
def failedRunDeliversNoSamples (core : IvpProblem → IvpSol) : Prop :=
  ∀ p : IvpProblem, (core p).status = -1 → (core p).ys = []

/-- A solver core that returns the same result object for every call;
used to instantiate the abstract collaborator in witnesses. -/
def constCore (s : IvpSol) : IvpProblem → IvpSol := fun _ => s

/-- A trivial derivative function standing in for `EOM` in witnesses. -/
def idDeriv : ℝ → List NF → List NF := fun _ Y => Y

end Kleopy

/-! ### Lemmas about the idealized float operations -/

namespace NF

@[simp] theorem add_fin_fin (a b : ℝ) : add (fin a) (fin b) = fin (a + b) := rfl

@[simp] theorem add_fin_pinf (a : ℝ) : add (fin a) pinf = pinf := rfl

@[simp] theorem add_pinf_fin (a : ℝ) : add pinf (fin a) = pinf := rfl

@[simp] theorem add_pinf_pinf : add pinf pinf = pinf := rfl

@[simp] theorem sub_fin_fin (a b : ℝ) : sub (fin a) (fin b) = fin (a - b) := rfl

@[simp] theorem sub_pinf_fin (a : ℝ) : sub pinf (fin a) = pinf := rfl

@[simp] theorem mul_fin_fin (a b : ℝ) : mul (fin a) (fin b) = fin (a * b) := rfl

theorem mul_fin_pinf_of_pos {a : ℝ} (h : 0 < a) : mul (fin a) pinf = pinf := by
  show (if 0 < a then pinf else if a < 0 then ninf else nan) = pinf
  rw [if_pos h]

theorem mul_fin_pinf_of_neg {a : ℝ} (h : a < 0) : mul (fin a) pinf = ninf := by
  show (if 0 < a then pinf else if a < 0 then ninf else nan) = ninf
  rw [if_neg (by linarith), if_pos h]

theorem div_fin_fin {a b : ℝ} (h : b ≠ 0) : div (fin a) (fin b) = fin (a / b) := by
  show (if b = 0 then (if 0 < a then pinf else if a < 0 then ninf else nan)
        else fin (a / b)) = fin (a / b)
  rw [if_neg h]

theorem div_fin_zero_of_pos {a : ℝ} (h : 0 < a) : div (fin a) (fin 0) = pinf := by
  show (if (0:ℝ) = 0 then (if 0 < a then pinf else if a < 0 then ninf else nan)
        else fin (a / 0)) = pinf
  rw [if_pos rfl, if_pos h]

theorem sqrt_fin_of_nonneg {a : ℝ} (h : 0 ≤ a) : sqrt (fin a) = fin (Real.sqrt a) := by
  show (if a < 0 then nan else fin (Real.sqrt a)) = fin (Real.sqrt a)
  rw [if_neg (not_lt.mpr h)]

theorem sqrt_fin_of_neg {a : ℝ} (h : a < 0) : sqrt (fin a) = nan := by
  show (if a < 0 then nan else fin (Real.sqrt a)) = nan
  rw [if_pos h]

@[simp] theorem sqrt_pinf : sqrt pinf = pinf := rfl

@[simp] theorem sqrt_ninf : sqrt ninf = nan := rfl

@[simp] theorem sqrt_nan : sqrt nan = nan := rfl

theorem log_fin_of_pos {a : ℝ} (h : 0 < a) : log (fin a) = fin (Real.log a) := by
  show (if 0 < a then fin (Real.log a) else if a = 0 then ninf else nan)
      = fin (Real.log a)
  rw [if_pos h]

@[simp] theorem log_pinf : log pinf = pinf := rfl

@[simp] theorem lt_fin_fin (a b : ℝ) : lt (fin a) (fin b) = decide (a < b) := rfl

@[simp] theorem lt_nan_fin (b : ℝ) : lt nan (fin b) = false := rfl

@[simp] theorem lt_pinf_fin (b : ℝ) : lt pinf (fin b) = false := rfl

@[simp] theorem lt_ninf_fin (b : ℝ) : lt ninf (fin b) = true := rfl

@[simp] theorem isInf_fin (a : ℝ) : isInf (fin a) = false := rfl

@[simp] theorem isInf_pinf : isInf pinf = true := rfl

@[simp] theorem isInf_ninf : isInf ninf = true := rfl

@[simp] theorem isInf_nan : isInf nan = false := rfl

@[simp] theorem isFinite_fin (a : ℝ) : isFinite (fin a) = true := rfl

@[simp] theorem isFinite_pinf : isFinite pinf = false := rfl

@[simp] theorem isFinite_ninf : isFinite ninf = false := rfl

@[simp] theorem isFinite_nan : isFinite nan = false := rfl

end NF

/-! ### Geometry of the two point-mass distances and evaluation lemmas
for the potentials -/

namespace Kleopy

theorem GM_pos : 0 < G * M := by norm_num [G, M, m1, m2, ms]

theorem coefA_pos : 0 < (1 - mu) * (1 - mu_s) := by norm_num [mu, mu_s]

theorem coefB_pos : 0 < mu * (1 - mu_s) := by norm_num [mu, mu_s]

theorem coefSeg_pos : 0 < mu_s / l := by norm_num [mu_s, l]

theorem kappa_pos : 0 < kappa := by norm_num [kappa]

theorem r1_nonneg (x y z : ℝ) : 0 ≤ r1 x y z := Real.sqrt_nonneg _

theorem r2_nonneg (x y z : ℝ) : 0 ≤ r2 x y z := Real.sqrt_nonneg _

theorem abs_le_r1 (x y z : ℝ) : |x + l1| ≤ r1 x y z := by
  rw [r1, ← Real.sqrt_sq_eq_abs]
  exact Real.sqrt_le_sqrt (by nlinarith [sq_nonneg y, sq_nonneg z])

theorem abs_le_r2 (x y z : ℝ) : |x - l2| ≤ r2 x y z := by
  rw [r2, ← Real.sqrt_sq_eq_abs]
  exact Real.sqrt_le_sqrt (by nlinarith [sq_nonneg y, sq_nonneg z])

/-- Triangle inequality: the sum of the distances to the two bodies is
at least the distance `l1 + l2 = 1` between the bodies, at every point.
In particular the domain violation `r1 + r2 < l` can never occur. -/
theorem one_le_dist_sum (x y z : ℝ) : 1 ≤ r1 x y z + r2 x y z := by
  have h1 : x + l1 ≤ r1 x y z := le_trans (le_abs_self _) (abs_le_r1 x y z)
  have h2 : l2 - x ≤ r2 x y z := by
    have h : l2 - x ≤ |x - l2| := by
      rw [abs_sub_comm]
      exact le_abs_self _
    exact le_trans h (abs_le_r2 x y z)
  have hl : l1 + l2 = 1 := by norm_num [l1, l2]
  linarith

theorem dist_sum_eq_one_of_r1_eq_zero {x y z : ℝ} (h : r1 x y z = 0) :
    r1 x y z + r2 x y z = 1 := by
  have h0 : 0 ≤ (x + l1) ^ 2 + y ^ 2 + z ^ 2 := by positivity
  have harg : (x + l1) ^ 2 + y ^ 2 + z ^ 2 = 0 := (Real.sqrt_eq_zero h0).mp h
  have hx : x = -l1 := by
    have h1 : (x + l1) ^ 2 = 0 := by nlinarith [sq_nonneg y, sq_nonneg z]
    have h2 : x + l1 = 0 := sq_eq_zero_iff.mp h1
    linarith
  have hy : y = 0 := by
    have h1 : y ^ 2 = 0 := by nlinarith [sq_nonneg (x + l1), sq_nonneg z]
    exact sq_eq_zero_iff.mp h1
  have hz : z = 0 := by
    have h1 : z ^ 2 = 0 := by nlinarith [sq_nonneg (x + l1), sq_nonneg y]
    exact sq_eq_zero_iff.mp h1
  rw [h, hx, hy, hz, r2]
  have harg2 : ((-l1 : ℝ) - l2) ^ 2 + (0:ℝ) ^ 2 + (0:ℝ) ^ 2 = (l1 + l2) ^ 2 := by
    ring
  rw [harg2, Real.sqrt_sq (by norm_num [l1, l2])]
  norm_num [l1, l2]

theorem dist_sum_eq_one_of_r2_eq_zero {x y z : ℝ} (h : r2 x y z = 0) :
    r1 x y z + r2 x y z = 1 := by
  have h0 : 0 ≤ (x - l2) ^ 2 + y ^ 2 + z ^ 2 := by positivity
  have harg : (x - l2) ^ 2 + y ^ 2 + z ^ 2 = 0 := (Real.sqrt_eq_zero h0).mp h
  have hx : x = l2 := by
    have h1 : (x - l2) ^ 2 = 0 := by nlinarith [sq_nonneg y, sq_nonneg z]
    have h2 : x - l2 = 0 := sq_eq_zero_iff.mp h1
    linarith
  have hy : y = 0 := by
    have h1 : y ^ 2 = 0 := by nlinarith [sq_nonneg (x - l2), sq_nonneg z]
    exact sq_eq_zero_iff.mp h1
  have hz : z = 0 := by
    have h1 : z ^ 2 = 0 := by nlinarith [sq_nonneg (x - l2), sq_nonneg y]
    exact sq_eq_zero_iff.mp h1
  rw [h, hx, hy, hz, r1]
  have harg2 : ((l2 : ℝ) + l1) ^ 2 + (0:ℝ) ^ 2 + (0:ℝ) ^ 2 = (l1 + l2) ^ 2 := by
    ring
  rw [harg2, Real.sqrt_sq (by norm_num [l1, l2])]
  norm_num [l1, l2]

theorem r1_pos_of_one_lt {x y z : ℝ} (h : 1 < r1 x y z + r2 x y z) :
    0 < r1 x y z := by
  rcases (r1_nonneg x y z).lt_or_eq with hp | hp
  · exact hp
  · exact absurd (dist_sum_eq_one_of_r1_eq_zero hp.symm) (by linarith)

theorem r2_pos_of_one_lt {x y z : ℝ} (h : 1 < r1 x y z + r2 x y z) :
    0 < r2 x y z := by
  rcases (r2_nonneg x y z).lt_or_eq with hp | hp
  · exact hp
  · exact absurd (dist_sum_eq_one_of_r2_eq_zero hp.symm) (by linarith)

/-- Evaluation of the shared mass-term sum of `potential` and
`potential_eff` off the segment (`r1 + r2 > l`): every operation stays
finite. -/
theorem massSum_fin {a b : ℝ} (ha : 0 < a) (hb : 0 < b) (hs : 1 < a + b) :
    NF.add
      (NF.add (NF.div (NF.fin ((1 - mu) * (1 - mu_s))) (NF.fin a))
              (NF.div (NF.fin (mu * (1 - mu_s))) (NF.fin b)))
      (NF.mul (NF.fin (mu_s / l))
        (NF.log (NF.div (NF.fin (a + b + l)) (NF.fin (a + b - l)))))
    = NF.fin ((1 - mu) * (1 - mu_s) / a + mu * (1 - mu_s) / b
        + mu_s / l * Real.log ((a + b + l) / (a + b - l))) := by
  have hl : l = (1:ℝ) := rfl
  have h1 : (0:ℝ) < a + b + l := by rw [hl]; linarith
  have h2 : (0:ℝ) < a + b - l := by rw [hl]; linarith
  have harg : 0 < (a + b + l) / (a + b - l) := div_pos h1 h2
  rw [NF.div_fin_fin (ne_of_gt ha), NF.div_fin_fin (ne_of_gt hb),
      NF.div_fin_fin (ne_of_gt h2), NF.log_fin_of_pos harg, NF.mul_fin_fin,
      NF.add_fin_fin, NF.add_fin_fin]

/-- Evaluation of the shared mass-term sum of `potential` and
`potential_eff` on the segment (`r1 + r2 = l`): the logarithm argument
divides by zero, producing `+inf`, which dominates the sum. -/
theorem massSum_pinf {a b : ℝ} (ha : 0 ≤ a) (hb : 0 ≤ b) (hs : a + b = 1) :
    NF.add
      (NF.add (NF.div (NF.fin ((1 - mu) * (1 - mu_s))) (NF.fin a))
              (NF.div (NF.fin (mu * (1 - mu_s))) (NF.fin b)))
      (NF.mul (NF.fin (mu_s / l))
        (NF.log (NF.div (NF.fin (a + b + l)) (NF.fin (a + b - l)))))
    = NF.pinf := by
  have hl : l = (1:ℝ) := rfl
  have h2 : a + b + l = 2 := by rw [hl]; linarith
  have hz : a + b - l = 0 := by rw [hl]; linarith
  rw [hz, h2, NF.div_fin_zero_of_pos (by norm_num), NF.log_pinf,
      NF.mul_fin_pinf_of_pos coefSeg_pos]
  rcases ha.lt_or_eq with hap | hae
  · rcases hb.lt_or_eq with hbp | hbe
    · rw [NF.div_fin_fin (ne_of_gt hap), NF.div_fin_fin (ne_of_gt hbp),
          NF.add_fin_fin, NF.add_fin_pinf]
    · rw [← hbe, NF.div_fin_fin (ne_of_gt hap),
          NF.div_fin_zero_of_pos coefB_pos, NF.add_fin_pinf, NF.add_pinf_pinf]
  · rw [← hae, NF.div_fin_zero_of_pos coefA_pos]
    rcases hb.lt_or_eq with hbp | hbe
    · rw [NF.div_fin_fin (ne_of_gt hbp), NF.add_pinf_fin, NF.add_pinf_pinf]
    · rw [← hbe, NF.div_fin_zero_of_pos coefB_pos, NF.add_pinf_pinf,
          NF.add_pinf_pinf]

theorem potential_eq_fin {x y z : ℝ} (h : 1 < r1 x y z + r2 x y z) :
    potential x y z
      = NF.fin (-(G * M) * ((1 - mu) * (1 - mu_s) / r1 x y z
          + mu * (1 - mu_s) / r2 x y z
          + mu_s / l * Real.log ((r1 x y z + r2 x y z + l)
              / (r1 x y z + r2 x y z - l)))) := by
  rw [potential, massSum_fin (r1_pos_of_one_lt h) (r2_pos_of_one_lt h) h,
      NF.mul_fin_fin]

theorem potential_eq_ninf {x y z : ℝ} (h : r1 x y z + r2 x y z = 1) :
    potential x y z = NF.ninf := by
  rw [potential, massSum_pinf (r1_nonneg x y z) (r2_nonneg x y z) h,
      NF.mul_fin_pinf_of_neg (neg_lt_zero.mpr GM_pos)]

theorem potential_eff_eq_fin {x y z : ℝ} (h : 1 < r1 x y z + r2 x y z) :
    potential_eff x y z
      = NF.fin (1 / 2 * (x ^ 2 + y ^ 2)
          + kappa * ((1 - mu) * (1 - mu_s) / r1 x y z
              + mu * (1 - mu_s) / r2 x y z
              + mu_s / l * Real.log ((r1 x y z + r2 x y z + l)
                  / (r1 x y z + r2 x y z - l)))) := by
  rw [potential_eff, massSum_fin (r1_pos_of_one_lt h) (r2_pos_of_one_lt h) h,
      NF.mul_fin_fin, NF.add_fin_fin]

theorem potential_eff_eq_pinf {x y z : ℝ} (h : r1 x y z + r2 x y z = 1) :
    potential_eff x y z = NF.pinf := by
  rw [potential_eff, massSum_pinf (r1_nonneg x y z) (r2_nonneg x y z) h,
      NF.mul_fin_pinf_of_pos kappa_pos, NF.add_fin_pinf]

theorem r1_origin : r1 0 0 0 = l1 := by
  rw [r1]
  have h : ((0:ℝ) + l1) ^ 2 + (0:ℝ) ^ 2 + (0:ℝ) ^ 2 = l1 ^ 2 := by ring
  rw [h, Real.sqrt_sq (by norm_num [l1])]

theorem r2_origin : r2 0 0 0 = l2 := by
  rw [r2]
  have h : ((0:ℝ) - l2) ^ 2 + (0:ℝ) ^ 2 + (0:ℝ) ^ 2 = l2 ^ 2 := by ring
  rw [h, Real.sqrt_sq (by norm_num [l2])]

/-- The origin lies exactly on the segment joining the two bodies:
`r1 + r2 = l1 + l2 = 1` there. -/
theorem dist_sum_origin : r1 0 0 0 + r2 0 0 0 = 1 := by
  rw [r1_origin, r2_origin]
  norm_num [l1, l2]

end Kleopy

namespace Kleopy

/-- At the probe point `x = 2.513392` on the axis, the distance to the
first body is exactly 3 (since `2.513392 + l1 = 3`). -/
theorem r1_probe : r1 2.513392 0 0 = 3 := by
  rw [r1]
  have h : ((2.513392:ℝ) + l1) ^ 2 + (0:ℝ) ^ 2 + (0:ℝ) ^ 2 = 3 ^ 2 := by
    norm_num [l1]
  rw [h, Real.sqrt_sq (by norm_num)]

/-- At the probe point `x = 2.513392`, the distance to the second body
is exactly 2 (since `2.513392 - l2 = 2`). -/
theorem r2_probe : r2 2.513392 0 0 = 2 := by
  rw [r2]
  have h : ((2.513392:ℝ) - l2) ^ 2 + (0:ℝ) ^ 2 + (0:ℝ) ^ 2 = 2 ^ 2 := by
    norm_num [l2]
  rw [h, Real.sqrt_sq (by norm_num)]

/-- The discriminant `sqrtval` of `find_dy0t` at `x0 = 0`, `C = 0` is
`+inf`, because `potential_eff(0,0,0)` is `+inf`. -/
theorem sqrtval_origin : sqrtval 0 0 = NF.pinf := by
  rw [sqrtval, potential_eff_eq_pinf dist_sum_origin,
      NF.mul_fin_pinf_of_pos (by norm_num : (0:ℝ) < 2), NF.sub_pinf_fin]

/-- C1: `find_dy0t` returns, at each cell, the square root of
`sqrtval = 2 * potential_eff(x0,0,0) - C` whenever that quantity is
finite and nonnegative, and the `nan` sentinel whenever it is negative
or non-finite; on same-shape 2-D inputs the output is elementwise (so it
has the broadcast shape of the inputs).  All modelled operations are
total, matching the fact that the numpy computation only emits
(suppressed) warnings and never raises. -/
theorem find_dy0t_spec (x0 C : ℝ) :
    (∀ r : ℝ, sqrtval x0 C = NF.fin r →
      ((0 ≤ r → find_dy0t x0 C = NF.fin (Real.sqrt r)) ∧
       (r < 0 → find_dy0t x0 C = NF.nan)))
  ∧ ((sqrtval x0 C).isFinite = false → find_dy0t x0 C = NF.nan)
  ∧ (∀ {n m : ℕ} (X0g Cg : Fin n → Fin m → ℝ) (i : Fin n) (j : Fin m),
      find_dy0t_grid X0g Cg i j = find_dy0t (X0g i j) (Cg i j)) := by
  refine ⟨?_, ?_, ?_⟩
  · intro r hr
    constructor
    · intro hge
      have hb : decide (r < 0) = false := decide_eq_false (not_lt.mpr hge)
      simp [find_dy0t, hr, hb, NF.sqrt_fin_of_nonneg hge]
    · intro hlt
      have hb : decide (r < 0) = true := decide_eq_true hlt
      simp [find_dy0t, hr, hb]
  · intro hnf
    cases hv : sqrtval x0 C with
    | fin r => rw [hv] at hnf; simp at hnf
    | pinf => simp [find_dy0t, hv]
    | ninf => simp [find_dy0t, hv]
    | nan => simp [find_dy0t, hv]
  · intro n m X0g Cg i j
    rfl

/-- C1 witness: at `x0 = 0`, `C = 0` the discriminant is non-finite
(`+inf`), and `find_dy0t` indeed returns the `nan` sentinel. -/
theorem find_dy0t_spec_witness :
    ((sqrtval 0 0).isFinite = false) ∧ find_dy0t 0 0 = NF.nan := by
  have h : (sqrtval 0 0).isFinite = false := by rw [sqrtval_origin]; rfl
  exact ⟨h, (find_dy0t_spec 0 0).2.1 h⟩

/-- C7 counterexample: `potential_eff(0,0,0)` is not a finite value at
all — the origin lies on the connecting segment (`l1 + l2 = l`), so the
logarithm term divides by zero. -/
theorem potential_eff_origin_not_finite :
    (potential_eff 0 0 0).isFinite = false := by
  rw [potential_eff_eq_pinf dist_sum_origin]
  rfl

/-- C7 amended: under the normalized constant profile,
`potential_eff(0,0,0)` evaluates to the non-finite value `+inf`
(`l1 + l2 = l` exactly, also in double precision, so the logarithm
argument is `2/0`); the regression pin for this input is `+inf`, not a
finite literal. -/
theorem potential_eff_origin_eq_pinf : potential_eff 0 0 0 = NF.pinf :=
  potential_eff_eq_pinf dist_sum_origin

/-- C8 counterexample: `potential` is singular (non-finite) at the
origin although both point-mass distances are nonzero there, refuting
"singular exactly where one of the distances is zero". -/
theorem potential_singular_away_from_masses :
    (potential 0 0 0).isFinite = false
  ∧ r1 0 0 0 ≠ 0 ∧ r2 0 0 0 ≠ 0 := by
  refine ⟨?_, ?_, ?_⟩
  · rw [potential_eq_ninf dist_sum_origin]
    rfl
  · rw [r1_origin]; norm_num [l1]
  · rw [r2_origin]; norm_num [l2]

/-- C8 amended: `potential` and `potential_eff` never raise (they are
total), the sum of the point-mass distances is always at least the
segment length `l` (so the domain violation `r1 + r2 < l` cannot occur),
and both functions are finite exactly where `r1 + r2 > l`, i.e. they are
singular (non-finite) exactly on the closed segment joining the two
bodies — which contains, but is strictly larger than, the two points
where a point-mass distance vanishes. -/
theorem potential_finiteness_characterization (x y z : ℝ) :
    l ≤ r1 x y z + r2 x y z
  ∧ ((potential x y z).isFinite = true ↔ l < r1 x y z + r2 x y z)
  ∧ ((potential_eff x y z).isFinite = true ↔ l < r1 x y z + r2 x y z) := by
  have hl : l = (1:ℝ) := rfl
  have hsum := one_le_dist_sum x y z
  refine ⟨by rw [hl]; exact hsum, ⟨?_, ?_⟩, ⟨?_, ?_⟩⟩
  · intro hf
    rw [hl]
    rcases lt_or_eq_of_le hsum with h | h
    · exact h
    · exfalso
      rw [potential_eq_ninf h.symm] at hf
      simp at hf
  · intro h
    rw [hl] at h
    rw [potential_eq_fin h]
    rfl
  · intro hf
    rw [hl]
    rcases lt_or_eq_of_le hsum with h | h
    · exact h
    · exfalso
      rw [potential_eff_eq_pinf h.symm] at hf
      simp at hf
  · intro h
    rw [hl] at h
    rw [potential_eff_eq_fin h]
    rfl

/-- C9: wherever `potential` is defined (finite), `potential_eff` is the
centrifugal term plus the `kappa`-scaled mass sum, equivalently
`potential_eff = 1/2*(x^2+y^2) - kappa/(G*M) * potential`. -/
theorem potential_eff_decomposition (x y z : ℝ)
    (h : (potential x y z).isFinite = true) :
    potential_eff x y z
      = NF.sub (NF.fin (1 / 2 * (x ^ 2 + y ^ 2)))
          (NF.mul (NF.fin (kappa / (G * M))) (potential x y z)) := by
  have hsum := one_le_dist_sum x y z
  have hlt : 1 < r1 x y z + r2 x y z := by
    rcases lt_or_eq_of_le hsum with h1 | h1
    · exact h1
    · exfalso
      rw [potential_eq_ninf h1.symm] at h
      simp at h
  rw [potential_eq_fin hlt, potential_eff_eq_fin hlt, NF.mul_fin_fin,
      NF.sub_fin_fin]
  congr 1
  have hGM : G * M ≠ 0 := ne_of_gt GM_pos
  field_simp
  ring

/-- C9 witness: the decomposition instantiated at the probe point
`(2.513392, 0, 0)`, where `r1 = 3` and `r2 = 2`, so `potential` is
finite. -/
theorem potential_eff_decomposition_witness :
    ((potential 2.513392 0 0).isFinite = true)
  ∧ potential_eff 2.513392 0 0
      = NF.sub (NF.fin (1 / 2 * ((2.513392:ℝ) ^ 2 + (0:ℝ) ^ 2)))
          (NF.mul (NF.fin (kappa / (G * M))) (potential 2.513392 0 0)) := by
  have hlt : 1 < r1 2.513392 0 0 + r2 2.513392 0 0 := by
    rw [r1_probe, r2_probe]
    norm_num
  have hf : (potential 2.513392 0 0).isFinite = true := by
    rw [potential_eq_fin hlt]
    rfl
  exact ⟨hf, potential_eff_decomposition 2.513392 0 0 hf⟩

end Kleopy

namespace Kleopy

/-- C2 (code bug): for every solver core, derivative function and pair
of 2-D grids, `process_grid` passes the whole 2-D arrays as the scalar
`x0` and `dy0t` entries of `y0 = [x0, 0, 0, 0, dy0t, 0]`, so the
`solve_ivp` argument validation raises `ValueError`; no terminal-velocity
grid is ever produced, contradicting the per-cell contract in the
docstring of `process_grid`. -/
theorem process_grid_always_raises (core : IvpProblem → IvpSol)
    (f : ℝ → List NF → List NF) (X0g DY0Tg : List (List NF)) :
    process_grid core f X0g DY0Tg = Except.error PyErr.valueError := rfl

/-- C4 (code bug): even on a concrete grid holding a `nan` sentinel
cell, `process_grid` raises `ValueError` instead of returning a
terminal-velocity grid, so no output `nan` mask exists to match the
input mask. -/
theorem process_grid_nan_cell_raises :
    process_grid (constCore ⟨0, []⟩) idDeriv
      [[NF.fin 1, NF.fin 2]] [[NF.nan, NF.fin 3]]
      = Except.error PyErr.valueError := rfl

/-- C5: `find_dxt` assembles exactly the initial state
`Y0 = (x0, 0, 0, 0, dy0t, 0)`, the time span `(0, pi)`, the default
method `DOP853`, and the single requested evaluation time `pi`; whenever
the solver delivers the one requested column `c` (the state at `t = pi`),
`find_dxt` returns its x-velocity entry, state component 3. -/
theorem find_dxt_extracts_terminal_x_velocity (core : IvpProblem → IvpSol)
    (f : ℝ → List NF → List NF) (x0 dy0t : NF) (c : List NF)
    (h : (core ⟨f, 0, Real.pi,
          [x0, NF.fin 0, NF.fin 0, NF.fin 0, dy0t, NF.fin 0],
          "DOP853", [Real.pi]⟩).ys = [c]) :
    find_dxt core f (PyVal.scalar x0) (PyVal.scalar dy0t)
      = Except.ok (c.getD 3 NF.nan) := by
  show (match (core ⟨f, 0, Real.pi,
          [x0, NF.fin 0, NF.fin 0, NF.fin 0, dy0t, NF.fin 0],
          "DOP853", [Real.pi]⟩).ys with
        | [] => Except.error PyErr.indexError
        | c :: _ => Except.ok (c.getD 3 NF.nan))
      = Except.ok (c.getD 3 NF.nan)
  rw [h]

/-- C5 witness: a constant solver core delivering the all-zero state
column at `t = pi`; `find_dxt` returns component 3 of that column. -/
theorem find_dxt_extracts_terminal_x_velocity_witness :
    ((constCore ⟨0, [List.replicate 6 (NF.fin 0)]⟩
        ⟨idDeriv, 0, Real.pi,
          [NF.fin 1, NF.fin 0, NF.fin 0, NF.fin 0, NF.fin 2, NF.fin 0],
          "DOP853", [Real.pi]⟩).ys = [List.replicate 6 (NF.fin 0)])
  ∧ find_dxt (constCore ⟨0, [List.replicate 6 (NF.fin 0)]⟩) idDeriv
      (PyVal.scalar (NF.fin 1)) (PyVal.scalar (NF.fin 2))
      = Except.ok ((List.replicate 6 (NF.fin 0)).getD 3 NF.nan) := by
  refine ⟨rfl, ?_⟩
  exact find_dxt_extracts_terminal_x_velocity _ _ _ _ _ rfl

/-- C6: when the solver core reports non-convergence (`status = -1`),
scipy delivers no samples for the single requested evaluation time
`t = pi` (a failed run stops before `tf`), and `find_dxt`'s extraction
`sol.y[3,0]` then raises `IndexError` — a distinguishable failure, never
a plain number or silent sentinel. -/
theorem find_dxt_failure_surfaces (core : IvpProblem → IvpSol)
    (f : ℝ → List NF → List NF) (x0 dy0t : NF)
    (hscipy : failedRunDeliversNoSamples core)
    (hfail : (core ⟨f, 0, Real.pi,
          [x0, NF.fin 0, NF.fin 0, NF.fin 0, dy0t, NF.fin 0],
          "DOP853", [Real.pi]⟩).status = -1) :
    find_dxt core f (PyVal.scalar x0) (PyVal.scalar dy0t)
      = Except.error PyErr.indexError := by
  have hys := hscipy _ hfail
  show (match (core ⟨f, 0, Real.pi,
          [x0, NF.fin 0, NF.fin 0, NF.fin 0, dy0t, NF.fin 0],
          "DOP853", [Real.pi]⟩).ys with
        | [] => Except.error PyErr.indexError
        | c :: _ => Except.ok (c.getD 3 NF.nan))
      = Except.error PyErr.indexError
  rw [hys]

/-- C6 witness: a solver core that always reports failure with no
delivered samples; `find_dxt` surfaces the `IndexError`. -/
theorem find_dxt_failure_surfaces_witness :
    failedRunDeliversNoSamples (constCore ⟨-1, []⟩)
  ∧ ((constCore ⟨-1, []⟩) ⟨idDeriv, 0, Real.pi,
        [NF.fin 1, NF.fin 0, NF.fin 0, NF.fin 0, NF.fin 2, NF.fin 0],
        "DOP853", [Real.pi]⟩).status = -1
  ∧ find_dxt (constCore ⟨-1, []⟩) idDeriv (PyVal.scalar (NF.fin 1))
      (PyVal.scalar (NF.fin 2)) = Except.error PyErr.indexError := by
  refine ⟨fun _ _ => rfl, rfl, ?_⟩
  exact find_dxt_failure_surfaces _ _ _ _ (fun _ _ => rfl) rfl

end Kleopy

/-! ### Lemmas about the axis construction and the ij grids -/

namespace Kleopy

theorem linspaceQ_length (lo hi : ℚ) (n : ℕ) : (linspaceQ lo hi n).length = n := by
  simp [linspaceQ]

theorem numSamples_eq {lo hi dif : ℚ} (h1 : lo ≤ hi) (h3 : 0 < dif) :
    numSamples lo hi dif = (⌊(hi - lo) / dif⌋).toNat + 1 := by
  have hq : 0 ≤ (hi - lo) / dif := div_nonneg (by linarith) (le_of_lt h3)
  have hfl : 0 ≤ ⌊(hi - lo) / dif⌋ := Int.floor_nonneg.mpr hq
  rw [numSamples, pyInt, if_pos hq]
  omega

theorem numSamples_pos {lo hi dif : ℚ} (h1 : lo ≤ hi) (h3 : 0 < dif) :
    1 ≤ numSamples lo hi dif := by
  rw [numSamples_eq h1 h3]
  omega

theorem two_le_numSamples {lo hi dif : ℚ} (h1 : lo ≤ hi) (h3 : 0 < dif)
    (h : dif ≤ hi - lo) : 2 ≤ numSamples lo hi dif := by
  rw [numSamples_eq h1 h3]
  have hq : (1:ℚ) ≤ (hi - lo) / dif := (le_div_iff₀ h3).mpr (by linarith)
  have hfl : (1:ℤ) ≤ ⌊(hi - lo) / dif⌋ := Int.le_floor.mpr (by exact_mod_cast hq)
  omega

theorem linspaceQ_getD {lo hi : ℚ} {n i : ℕ} (h : i < n) :
    (linspaceQ lo hi n).getD i 0
      = if 2 ≤ n ∧ i = n - 1 then hi else lo + i * ((hi - lo) / (n - 1)) := by
  rw [linspaceQ, List.getD_eq_getElem?_getD, List.getElem?_map,
      List.getElem?_range h]
  rfl

theorem lo_mem_linspaceQ {lo hi : ℚ} {n : ℕ} (h : 0 < n) :
    lo ∈ linspaceQ lo hi n := by
  rw [linspaceQ, List.mem_map]
  refine ⟨0, List.mem_range.mpr h, ?_⟩
  have hne : ¬(2 ≤ n ∧ 0 = n - 1) := by
    rintro ⟨h2, h0⟩
    omega
  rw [if_neg hne]
  simp

theorem hi_mem_linspaceQ {lo hi : ℚ} {n : ℕ} (h : 2 ≤ n) :
    hi ∈ linspaceQ lo hi n := by
  rw [linspaceQ, List.mem_map]
  refine ⟨n - 1, List.mem_range.mpr (by omega), ?_⟩
  rw [if_pos ⟨h, rfl⟩]

theorem linspaceQ_spacing {lo hi : ℚ} {n i : ℕ} (h : i + 1 < n) :
    (linspaceQ lo hi n).getD (i + 1) 0 - (linspaceQ lo hi n).getD i 0
      = (hi - lo) / ((n : ℚ) - 1) := by
  have h2n : 2 ≤ n := by omega
  have hilt : i < n := by omega
  have hne : ¬(2 ≤ n ∧ i = n - 1) := by
    rintro ⟨_, h0⟩
    omega
  have hden : ((n : ℚ) - 1) ≠ 0 := by
    have : (2:ℚ) ≤ (n : ℚ) := by exact_mod_cast h2n
    linarith
  rw [linspaceQ_getD h, linspaceQ_getD hilt, if_neg hne]
  by_cases hlast : i + 1 = n - 1
  · rw [if_pos ⟨h2n, hlast⟩]
    have hieq : (i : ℚ) = (n : ℚ) - 2 := by
      have hi2 : i = n - 2 := by omega
      rw [hi2, Nat.cast_sub h2n]
      norm_num
    rw [hieq]
    field_simp
    ring
  · rw [if_neg (by rintro ⟨_, h0⟩; exact hlast h0)]
    push_cast
    ring

theorem axisSpec_holds {lo hi dif : ℚ} (h1 : lo ≤ hi) (h3 : 0 < dif) :
    axisSpec lo hi dif (linspaceQ lo hi (numSamples lo hi dif)) := by
  have hn1 : 1 ≤ numSamples lo hi dif := numSamples_pos h1 h3
  refine ⟨?_, ?_, ?_, ?_⟩
  · rw [linspaceQ_length, numSamples_eq h1 h3]
  · exact lo_mem_linspaceQ (by omega)
  · intro h
    exact hi_mem_linspaceQ (two_le_numSamples h1 h3 h)
  · intro i hi
    rw [linspaceQ_length] at hi ⊢
    exact linspaceQ_spacing hi

theorem X0_grid_length (xs cs : List ℚ) : (X0_grid xs cs).length = xs.length := by
  simp [X0_grid]

theorem C_grid_length (xs cs : List ℚ) : (C_grid xs cs).length = xs.length := by
  simp [C_grid]

theorem DY0T_grid_length (xs cs : List ℚ) :
    (DY0T_grid xs cs).length = xs.length := by
  simp [DY0T_grid, X0_grid_length, C_grid_length]

theorem X0_grid_row {xs cs : List ℚ} {i : ℕ} (h : i < xs.length) :
    (X0_grid xs cs).getD i [] = cs.map (fun _ => xs.getD i 0) := by
  rw [X0_grid, List.getD_eq_getElem?_getD, List.getElem?_map,
      List.getElem?_eq_getElem h, List.getD_eq_getElem xs 0 h]
  rfl

theorem C_grid_row {xs cs : List ℚ} {i : ℕ} (h : i < xs.length) :
    (C_grid xs cs).getD i [] = cs := by
  rw [C_grid, List.getD_eq_getElem?_getD, List.getElem?_map,
      List.getElem?_eq_getElem h]
  rfl

theorem DY0T_grid_row {xs cs : List ℚ} {i : ℕ} (h : i < xs.length) :
    (DY0T_grid xs cs).getD i []
      = List.zipWith (fun (x c : ℚ) => find_dy0t (x : ℝ) (c : ℝ))
          ((X0_grid xs cs).getD i []) ((C_grid xs cs).getD i []) := by
  have hx : i < (X0_grid xs cs).length := by
    rw [X0_grid_length]
    exact h
  have hc : i < (C_grid xs cs).length := by
    rw [C_grid_length]
    exact h
  have hz : i < (DY0T_grid xs cs).length := by
    rw [DY0T_grid_length]
    exact h
  rw [List.getD_eq_getElem _ _ hz, List.getD_eq_getElem _ _ hx,
      List.getD_eq_getElem _ _ hc]
  simp only [DY0T_grid]
  rw [List.getElem_zipWith]

theorem ijGridSpec_holds (xs cs : List ℚ) : ijGridSpec xs cs := by
  refine ⟨X0_grid_length xs cs, C_grid_length xs cs, DY0T_grid_length xs cs,
    ?_, ?_⟩
  · intro i hi
    refine ⟨?_, ?_, ?_⟩
    · rw [X0_grid_row hi]
      simp
    · rw [C_grid_row hi]
    · rw [DY0T_grid_row hi, X0_grid_row hi, C_grid_row hi]
      simp
  · intro i j hi hj
    constructor
    · rw [X0_grid_row hi, List.getD_eq_getElem?_getD, List.getElem?_map,
          List.getElem?_eq_getElem hj]
      rfl
    · rw [C_grid_row hi]

/-- C3 (amended): under the documented usage (`min ≤ max`, positive
steps) each `init_grid` axis has exactly `floor(range/step) + 1`
samples, contains its minimum, contains its maximum whenever it has at
least two samples (i.e. whenever `step ≤ range`), and is evenly spaced;
and the three grids `X0_grid`, `C_grid`, `DY0T_grid` share the shape
`(n_x0, n_C)` with `X0_grid[i][j] = x0_array[i]` and
`C_grid[i][j] = C_array[j]`.  (The unamended claim fails only in that a
single-sample axis omits the maximum.) -/
theorem init_grid_spec (x0_min x0_max C_min C_max dif_x0 dif_C : ℚ)
    (h1 : x0_min ≤ x0_max) (h2 : C_min ≤ C_max)
    (h3 : 0 < dif_x0) (h4 : 0 < dif_C) :
    axisSpec x0_min x0_max dif_x0 (x0_array x0_min x0_max dif_x0)
  ∧ axisSpec C_min C_max dif_C (C_array C_min C_max dif_C)
  ∧ ijGridSpec (x0_array x0_min x0_max dif_x0) (C_array C_min C_max dif_C) :=
  ⟨axisSpec_holds h1 h3, axisSpec_holds h2 h4, ijGridSpec_holds _ _⟩

/-- C3 witness: the amended specification instantiated on the concrete
build `init_grid(0, 1, 0, 1, dif_x0=1/2, dif_C=1/2)` (a 3 by 3 grid). -/
theorem init_grid_spec_witness :
    ((0:ℚ) ≤ 1 ∧ (0:ℚ) ≤ 1 ∧ (0:ℚ) < 1/2 ∧ (0:ℚ) < 1/2)
  ∧ (axisSpec 0 1 (1/2) (x0_array 0 1 (1/2))
     ∧ axisSpec 0 1 (1/2) (C_array 0 1 (1/2))
     ∧ ijGridSpec (x0_array 0 1 (1/2)) (C_array 0 1 (1/2))) := by
  refine ⟨by norm_num, ?_⟩
  exact init_grid_spec 0 1 0 1 (1/2) (1/2) (by norm_num) (by norm_num)
    (by norm_num) (by norm_num)

/-- C3 counterexample: with `x0_min = 0 ≤ x0_max = 1` and positive step
`dif_x0 = 2` (all hypotheses of the claim hold), the position axis is
the single sample `[0]`: it does not include the endpoint `x0_max = 1`,
refuting "includes both endpoints" as universally stated. -/
theorem init_grid_endpoint_missing :
    (0:ℚ) ≤ 1 ∧ (0:ℚ) < 2
  ∧ x0_array 0 1 2 = [0] ∧ (1:ℚ) ∉ x0_array 0 1 2 := by
  have hn : numSamples 0 1 2 = 1 := by
    rw [numSamples, pyInt, if_pos (by norm_num)]
    norm_num
  have hx : x0_array 0 1 2 = [0] := by
    rw [x0_array, hn, linspaceQ, show List.range 1 = [0] from rfl]
    norm_num
  refine ⟨by norm_num, by norm_num, hx, ?_⟩
  rw [hx]
  norm_num

end Kleopy

namespace Kleopy

theorem flat_idx_lt {n m : ℕ} (i : Fin n) (j : Fin m) :
    i.val * m + j.val < n * m := by
  have hj := j.isLt
  have h2 : (i.val + 1) * m ≤ n * m :=
    mul_le_mul_right' (Nat.succ_le_of_lt i.isLt) m
  have h3 : (i.val + 1) * m = i.val * m + m := by ring
  omega

theorem stackT_fst (xs cs : List ℚ) (a : Fin xs.length) (b : Fin cs.length) :
    stackT xs cs a b 0 = xs.get a := rfl

theorem stackT_snd (xs cs : List ℚ) (a : Fin xs.length) (b : Fin cs.length) :
    stackT xs cs a b 1 = cs.get b := rfl

/-- C10: the flattened `(N, 2)` pairs array returned by `init_grid` when
`retgrid` is true aligns index-for-index with the row-major flattening
of the ij grids: entry `i * n_C + j` is exactly
`(x0_array[i], C_array[j]) = (X0_grid[i][j], C_grid[i][j])`, because the
`.T` transpose exactly compensates the `xy` ordering of the plain
`np.meshgrid` call. -/
theorem retgrid_pairs_aligned (xs cs : List ℚ) (i : Fin xs.length)
    (j : Fin cs.length) :
    flatPairs xs cs ⟨i.val * cs.length + j.val, flat_idx_lt i j⟩ 0 = xs.get i
  ∧ flatPairs xs cs ⟨i.val * cs.length + j.val, flat_idx_lt i j⟩ 1 = cs.get j
  ∧ ((X0_grid xs cs).getD i.val []).getD j.val 0 = xs.get i
  ∧ ((C_grid xs cs).getD i.val []).getD j.val 0 = cs.get j := by
  have hm : 0 < cs.length := j.pos
  have hdiv : (i.val * cs.length + j.val) / cs.length = i.val := by
    rw [Nat.mul_comm i.val cs.length, Nat.mul_add_div hm,
        Nat.div_eq_of_lt j.isLt, Nat.add_zero]
  have hmod : (i.val * cs.length + j.val) % cs.length = j.val := by
    rw [Nat.mul_comm i.val cs.length, Nat.mul_add_mod,
        Nat.mod_eq_of_lt j.isLt]
  refine ⟨?_, ?_, ?_, ?_⟩
  · simp only [flatPairs]
    have key : ∀ (a : Fin xs.length) (b : Fin cs.length), a.val = i.val →
        stackT xs cs a b 0 = xs.get i := by
      intro a b ha
      have haa : a = i := Fin.ext ha
      subst haa
      rfl
    exact key _ _ hdiv
  · simp only [flatPairs]
    have key : ∀ (a : Fin xs.length) (b : Fin cs.length), b.val = j.val →
        stackT xs cs a b 1 = cs.get j := by
      intro a b hb
      have hbb : b = j := Fin.ext hb
      subst hbb
      rfl
    exact key _ _ hmod
  · rw [X0_grid_row i.isLt, List.getD_eq_getElem?_getD, List.getElem?_map,
        List.getElem?_eq_getElem j.isLt, List.getD_eq_getElem xs 0 i.isLt]
    simp [List.get_eq_getElem]
  · rw [C_grid_row i.isLt, List.getD_eq_getElem cs 0 j.isLt]
    simp [List.get_eq_getElem]

end Kleopy
